import Mathlib

/-!
Verification development for the vrp repository (FokusGit/vrp).

The definitions below are a shallow embedding of the Rust sources:
  * vrp-core/src/construction/heuristics/evaluators.rs (insertion evaluator),
  * vrp-core/src/solver/mutation/ruin/mod.rs (removal chunk size),
  * rosomaxa/src/evolution/config.rs (evolution config builder),
  * rosomaxa/src/evolution/strategies/iterative.rs (generation loop),
  * vrp-cli/src/extensions/import/hre.rs (relation type adapters).

Costs are IEEE-754 doubles in the source; the spec rules out NaN, so costs
are embedded as rationals (a linearly ordered, executable field). The i32
and usize machine integers of the ruin module are embedded as Int and Nat
with the saturating float-to-usize cast made explicit.

Types that live outside the provided src/ tree (Tour, InsertionResult,
ConstraintPipeline, TimeSpan, ...) are modelled from the spec; each such
definition carries a doc comment starting with: Modelled from the spec.
-/

namespace VRP

/-- Cost type: f64 in the source, embedded as rationals (spec: no NaN). -/
abbrev Cost := ℚ

/-- Largest finite f64 value, used by the source as an initial incumbent
bound (std::f64::MAX = (2 - 2 ^ (-52)) * 2 ^ 1023). -/
def f64MAX : Cost := 2 ^ 1024 - 2 ^ 971

/-- ActivityConstraintViolation from vrp-core construction::constraints. -/
structure Violation where
  code : ℕ
  stopped : Bool
deriving DecidableEq, Repr

/-- Modelled from the spec: a Place resolved for an activity carries a
location, a service duration and a chosen time window (glossary section).
Time windows are opaque tokens here. -/
structure Place where
  location : ℕ
  duration : ℚ
  time : ℕ
deriving DecidableEq, Repr

/-- Modelled from the spec: an activity schedule (arrival, departure). -/
structure Schedule where
  arrival : ℚ
  departure : ℚ
deriving DecidableEq, Repr

/-- Modelled from the spec: a place candidate of a Single task; location may
be absent (then the location of the previous activity is used, as in
analyze_insertion_in_route_leg), and it offers a list of time windows. -/
structure SinglePlace where
  location : Option ℕ
  duration : ℚ
  times : List ℕ
deriving DecidableEq, Repr

/-- Modelled from the spec: a Single job is one mandatory task with one or
more place candidates. -/
structure Single where
  places : List SinglePlace
deriving DecidableEq, Repr

/-- Modelled from the spec: a Multi job has ordered sub-tasks and a declared
set of allowed permutations (given as index lists into jobs). -/
structure Multi where
  jobs : List Single
  perms : List (List ℕ)
deriving DecidableEq, Repr

/-- Job: the Single / Multi dichotomy (models::problem::Job). -/
inductive Job where
  | single (s : Single)
  | multi (m : Multi)
deriving DecidableEq, Repr

/-- Modelled from the spec: Multi::permutations resolves the declared index
permutations to sequences of sub-task Singles. -/
def Multi.permutations (m : Multi) : List (List Single) :=
  m.perms.map (fun p => p.filterMap (fun i => m.jobs.get? i))

/-- Modelled from the spec: an activity of a tour; it references the Single
it serves (sub-tasks of a Multi reference their own Single). -/
structure Activity where
  place : Place
  schedule : Schedule
  job : Option Single
deriving DecidableEq, Repr

/-- Activity::new_with_job: a fresh activity for the given Single. -/
def Activity.new_with_job (s : Single) : Activity :=
  { place := { location := 0, duration := 0, time := 0 }
    schedule := { arrival := 0, departure := 0 }
    job := some s }

/-- Modelled from the spec: whether an activity belongs to the given job
(a sub-task activity belongs to its parent Multi). -/
def Activity.belongsTo (a : Activity) (j : Job) : Bool :=
  match a.job, j with
  | some s, Job.single s2 => s = s2
  | some s, Job.multi m => m.jobs.contains s
  | none, _ => false

/-- Modelled from the spec: a Tour is the ordered activity sequence of a
route, synthetic start and end included. -/
structure Tour where
  acts : List Activity
deriving DecidableEq, Repr

/-- Leg: a (prev, next) adjacent pair of a tour together with its index;
next is absent for the single leg of a one-activity tour. -/
structure Leg where
  prev : Activity
  next : Option Activity
  index : ℕ
deriving DecidableEq, Repr

/-- Helper producing the consecutive-pair legs starting at a given index. -/
def legsAux (prev : Activity) : List Activity → ℕ → List Leg
  | [], _ => []
  | n :: ns, i => { prev := prev, next := some n, index := i } :: legsAux n ns (i + 1)

/-- Modelled from the spec: Tour::legs, the insertion targets in tour
order: windows of size two, or the lone start activity when the tour has a
single activity. -/
def Tour.legs (t : Tour) : List Leg :=
  match t.acts with
  | [] => []
  | [a] => [{ prev := a, next := none, index := 0 }]
  | a :: b :: rest => legsAux a (b :: rest) 0

/-- Modelled from the spec: Tour::start, the start activity (total version,
defaulting on an empty tour; every caller below has seen a leg and hence a
nonempty tour). -/
def Tour.start (t : Tour) : Activity :=
  t.acts.headD (Activity.new_with_job { places := [] })

/-- Modelled from the spec: count of real activities between the synthetic
start and end of a tour. -/
def Tour.activity_count (t : Tour) : ℕ :=
  t.acts.length - 2

/-- Modelled from the spec: Tour::insert_at places an activity at the given
absolute index. -/
def Tour.insert_at (t : Tour) (a : Activity) (idx : ℕ) : Tour :=
  { acts := t.acts.insertIdx idx a }

/-- Modelled from the spec: Tour::remove deletes every activity that belongs
to the given job. -/
def Tour.remove (t : Tour) (j : Job) : Tour :=
  { acts := t.acts.filter (fun a => !a.belongsTo j) }

/-- Modelled from the spec: Tour::get, the activity at an absolute index. -/
def Tour.get (t : Tour) (idx : ℕ) : Option Activity :=
  t.acts.get? idx

/-- Modelled from the spec: the per-route derived state annotations, keyed
by activity. -/
structure StateMap where
  entries : List (Activity × ℕ)
deriving DecidableEq, Repr

/-- Modelled from the spec: RouteState::remove_activity_states drops the
annotations of one activity. -/
def StateMap.remove_activity_states (s : StateMap) (a : Activity) : StateMap :=
  { entries := s.entries.filter (fun e => e.1 ≠ a) }

/-- Modelled from the spec: a Route owns its tour (actor detail elided). -/
structure Route where
  tour : Tour
deriving DecidableEq, Repr

/-- RouteContext: a route plus its derived state map. -/
structure RouteContext where
  route : Route
  state : StateMap
deriving DecidableEq, Repr

/-- RouteContext::deep_copy; with value semantics the detached copy is the
same value. -/
def RouteContext.deep_copy (rc : RouteContext) : RouteContext := rc

/-- Modelled from the spec: the solution-level context is opaque to the
evaluator; it is only handed to the route-level constraint functions. -/
structure SolutionContext where
  id : ℕ
deriving DecidableEq, Repr

/-- ActivityContext handed to activity-level constraints: leg index,
previous activity, candidate target and optional next activity. -/
structure ActivityContext where
  index : ℕ
  prev : Activity
  target : Activity
  next : Option Activity
deriving DecidableEq, Repr

/-- Modelled from the spec: the constraint pipeline interface of section
4.1; hard evaluations yield the first violation or none, soft evaluations
sum to a cost, accept_route_state recomputes the state of one route. -/
structure ConstraintPipeline where
  evaluate_hard_route : SolutionContext → RouteContext → Job → Option Violation
  evaluate_soft_route : SolutionContext → RouteContext → Job → Cost
  evaluate_hard_activity : RouteContext → ActivityContext → Option Violation
  evaluate_soft_activity : RouteContext → ActivityContext → Cost
  accept_route_state : RouteContext → StateMap

/-- InsertionContext as consumed by the evaluator: the problem constraint
pipeline and the opaque solution context. -/
structure InsertionContext where
  constraint : ConstraintPipeline
  solution : SolutionContext

/-- Modelled from the spec: the Success payload of an insertion result. -/
structure InsertionSuccess where
  cost : Cost
  job : Job
  activities : List (Activity × ℕ)
  context : RouteContext
deriving DecidableEq, Repr

/-- Modelled from the spec: the Failure payload of an insertion result. -/
structure InsertionFailure where
  constraint : ℕ
  job : Option Job
deriving DecidableEq, Repr

/-- InsertionResult = Success / Failure. -/
inductive InsertionResult where
  | success (s : InsertionSuccess)
  | failure (f : InsertionFailure)
deriving DecidableEq, Repr

/-- InsertionResult::make_failure. -/
def InsertionResult.make_failure : InsertionResult :=
  InsertionResult.failure { constraint := 0, job := none }

/-- InsertionResult::make_failure_with_code. -/
def InsertionResult.make_failure_with_code (code : ℕ) (job : Option Job) : InsertionResult :=
  InsertionResult.failure { constraint := code, job := job }

/-- InsertionResult::make_success. -/
def InsertionResult.make_success (cost : Cost) (job : Job)
    (activities : List (Activity × ℕ)) (ctx : RouteContext) : InsertionResult :=
  InsertionResult.success { cost := cost, job := job, activities := activities, context := ctx }

/-- Modelled from the spec: choose_best_result keeps the legal insertion of
strictly lowest cost; comparisons use strict improvement so ties keep the
earlier (left) result, a success beats a failure, and between failures the
later one (most advanced code) is kept. -/
def InsertionResult.choose_best_result : InsertionResult → InsertionResult → InsertionResult
  | InsertionResult.success l, InsertionResult.success r =>
      if r.cost < l.cost then InsertionResult.success r else InsertionResult.success l
  | InsertionResult.success l, InsertionResult.failure _ => InsertionResult.success l
  | InsertionResult.failure _, InsertionResult.success r => InsertionResult.success r
  | InsertionResult.failure _, InsertionResult.failure r => InsertionResult.failure r

/-- InsertionPosition: allowed insertion position policy. -/
inductive InsertionPosition where
  | Any
  | Concrete (idx : ℕ)
  | Last
deriving DecidableEq, Repr

/-- SingleContext from evaluators.rs: scan state of the single-job leg
analysis. -/
structure SingleContext where
  violation : Option Violation
  index : ℕ
  cost : Option Cost
  place : Option Place
deriving DecidableEq, Repr

/-- SingleContext::new. -/
def SingleContext.new (cost : Option Cost) (index : ℕ) : SingleContext :=
  { violation := none, index := index, cost := cost, place := none }

/-- SingleContext::fail: record the violation; a stopped violation aborts
(error), otherwise scanning continues (ok). -/
def SingleContext.fail (violation : Violation) (other : SingleContext) :
    Except SingleContext SingleContext :=
  let ctx : SingleContext :=
    { violation := some violation, index := other.index, cost := other.cost, place := other.place }
  if violation.stopped then Except.error ctx else Except.ok ctx

/-- SingleContext::success. -/
def SingleContext.success (index : ℕ) (cost : Cost) (place : Place) :
    Except SingleContext SingleContext :=
  Except.ok { violation := none, index := index, cost := some cost, place := some place }

/-- SingleContext::skip. -/
def SingleContext.skip (other : SingleContext) : Except SingleContext SingleContext :=
  Except.ok other

/-- SingleContext::is_success. -/
def SingleContext.is_success (c : SingleContext) : Bool :=
  c.place.isSome

/-- Iterator::try_fold embedded on lists: fold that short-circuits on an
error. -/
def tryFold {α β : Type} (f : β → α → Except β β) : β → List α → Except β β
  | b, [] => Except.ok b
  | b, a :: as => match f b a with
    | Except.ok b2 => tryFold f b2 as
    | Except.error b2 => Except.error b2

/-- unwrap_from_result from evaluators.rs. -/
def unwrap_from_result {α : Type} : Except α α → α
  | Except.ok r => r
  | Except.error r => r

/-- Modelled from the spec: TimeSpan::to_time_window resolves a time span
against the tour start; time windows are opaque tokens here, so the
resolution keeps the token. -/
def toTimeWindowTok (tw : ℕ) (startTime : ℚ) : ℕ :=
  let _ := startTime
  tw

/-- Target activity built for one (place detail, time window) candidate in
analyze_insertion_in_route_leg. -/
def candidateTarget (single : Single) (prev : Activity) (detail : SinglePlace)
    (tw : ℕ) (startTime : ℚ) : Activity :=
  { Activity.new_with_job single with
      place := { location := detail.location.getD prev.place.location
                 duration := detail.duration
                 time := toTimeWindowTok tw startTime } }

/-- analyze_insertion_in_route_leg from evaluators.rs: scan every place
detail and time window of the Single at one leg. -/
def analyze_insertion_in_route_leg (cp : ConstraintPipeline) (rc : RouteContext)
    (leg : Leg) (single : Single) (out : SingleContext) :
    Except SingleContext SingleContext :=
  let startTime := (Tour.start rc.route.tour).schedule.departure
  tryFold (fun in1 detail =>
    tryFold (fun in2 tw =>
      let target := candidateTarget single leg.prev detail tw startTime
      let activity_ctx : ActivityContext :=
        { index := leg.index, prev := leg.prev, target := target, next := leg.next }
      match cp.evaluate_hard_activity rc activity_ctx with
      | some violation => SingleContext.fail violation in2
      | none =>
        let costs := cp.evaluate_soft_activity rc activity_ctx
        if costs < in2.cost.getD f64MAX then
          SingleContext.success activity_ctx.index costs target.place
        else
          SingleContext.skip in2) in1 detail.times) out single.places

/-- analyze_insertion_in_route from evaluators.rs: scan one concrete leg, or
every leg from the start hint onwards. -/
def analyze_insertion_in_route (cp : ConstraintPipeline) (rc : RouteContext)
    (insertion_idx : Option ℕ) (single : Single) (init : SingleContext) : SingleContext :=
  unwrap_from_result (match insertion_idx with
    | some idx =>
      match rc.route.tour.legs.get? idx with
      | some concrete_leg => analyze_insertion_in_route_leg cp rc concrete_leg single init
      | none => Except.ok init
    | none =>
      tryFold (fun out leg => analyze_insertion_in_route_leg cp rc leg single out)
        init (rc.route.tour.legs.drop init.index))

/-- get_insertion_index from evaluators.rs. -/
def get_insertion_index (rc : RouteContext) (position : InsertionPosition) : Option ℕ :=
  match position with
  | InsertionPosition.Any => none
  | InsertionPosition.Concrete idx => some idx
  | InsertionPosition.Last => some (max rc.route.tour.legs.length 1 - 1)

/-- evaluate_single from evaluators.rs. -/
def evaluate_single (job : Job) (single : Single) (cp : ConstraintPipeline)
    (rc : RouteContext) (position : InsertionPosition) (route_costs : Cost)
    (best_known_cost : Option Cost) : InsertionResult :=
  let insertion_idx := get_insertion_index rc position
  let activity := Activity.new_with_job single
  let result := analyze_insertion_in_route cp rc insertion_idx single
    (SingleContext.new best_known_cost 0)
  if result.is_success then
    let activity2 := { activity with place := result.place.getD activity.place }
    let activities := [(activity2, result.index)]
    InsertionResult.make_success (result.cost.getD 0 + route_costs) job activities rc
  else
    InsertionResult.make_failure_with_code ((result.violation.map (fun v => v.code)).getD 0)
      (some job)

/-- MultiContext from evaluators.rs: scan state of the multi-job insertion. -/
structure MultiContext where
  violation : Option Violation
  start_index : ℕ
  next_index : ℕ
  cost : Option Cost
  activities : Option (List (Activity × ℕ))
deriving DecidableEq, Repr

/-- MultiContext::new. -/
def MultiContext.new (cost : Option Cost) (index : ℕ) : MultiContext :=
  { violation := none, start_index := index, next_index := index, cost := cost,
    activities := none }

/-- MultiContext::promote: keep the better of two contexts and advance the
start index; a stopped violation propagates as an error. -/
def MultiContext.promote (left right : MultiContext) : Except MultiContext MultiContext :=
  let index := max left.start_index right.start_index + 1
  let best :=
    match left.cost, right.cost with
    | some lc, some rcost => if lc < rcost then left else right
    | some _, none => left
    | none, some _ => right
    | none, none => if left.violation.isSome then left else right
  let result : MultiContext :=
    { violation := best.violation, start_index := index, next_index := index,
      cost := best.cost, activities := best.activities }
  if (result.violation.map (fun v => v.stopped)).getD false then
    Except.error result
  else
    Except.ok result

/-- MultiContext::fail. -/
def MultiContext.fail (err_ctx : SingleContext) (other_ctx : MultiContext) :
    Except MultiContext MultiContext :=
  let cs :=
    match err_ctx.violation with
    | some v => (v.code, v.stopped && other_ctx.activities.isNone)
    | none => (0, false)
  Except.error
    { violation := some { code := cs.1, stopped := cs.2 },
      start_index := other_ctx.start_index, next_index := other_ctx.start_index,
      cost := none, activities := none }

/-- MultiContext::success. -/
def MultiContext.success (cost : Cost) (activities : List (Activity × ℕ)) :
    Except MultiContext MultiContext :=
  Except.ok
    { violation := none,
      start_index := ((activities.head?).map (fun a => a.2)).getD 0,
      next_index := ((activities.getLast?).map (fun a => a.2)).getD 0 + 1,
      cost := some cost, activities := some activities }

/-- MultiContext::next. -/
def MultiContext.next (c : MultiContext) : MultiContext :=
  { violation := none, start_index := c.start_index, next_index := c.start_index,
    cost := none, activities := none }

/-- MultiContext::is_success. -/
def MultiContext.is_success (c : MultiContext) : Bool :=
  c.violation.isNone && c.cost.isSome && c.activities.isSome

/-- MultiContext::is_failure. -/
def MultiContext.is_failure (c : MultiContext) (index : ℕ) : Bool :=
  ((c.violation.map (fun v => v.stopped)).getD false) || decide (c.start_index > index)

/-- ShadowContext from evaluators.rs: copy-on-write wrapper over a route
context used during multi-job evaluation (the pipeline reference is passed
explicitly since the embedding stores no function values in the state). -/
structure ShadowContext where
  is_mutated : Bool
  is_dirty : Bool
  ctx : RouteContext
deriving DecidableEq, Repr

/-- ShadowContext::new: wrap the original route context, not yet mutated. -/
def ShadowContext.new (ctx : RouteContext) : ShadowContext :=
  { is_mutated := false, is_dirty := false,
    ctx := { route := ctx.route, state := ctx.state } }

/-- ShadowContext::insert: deep-copy on first write, insert the activity at
index + 1, re-accept the route state, mark dirty, and return the inserted
activity. -/
def ShadowContext.insert (cp : ConstraintPipeline) (s : ShadowContext)
    (activity : Activity) (index : ℕ) : ShadowContext × Activity :=
  let ctx0 := if s.is_mutated then s.ctx else s.ctx.deep_copy
  let tour1 := ctx0.route.tour.insert_at activity (index + 1)
  let mid : RouteContext := { route := { tour := tour1 }, state := ctx0.state }
  let ctx1 : RouteContext := { mid with state := cp.accept_route_state mid }
  ({ is_mutated := true, is_dirty := true, ctx := ctx1 },
   (ctx1.route.tour.get (index + 1)).getD activity)

/-- ShadowContext::restore: when dirty, drop the per-activity states, remove
every activity of the job from the tour and re-accept the route state;
otherwise do nothing. -/
def ShadowContext.restore (cp : ConstraintPipeline) (s : ShadowContext) (job : Job) :
    ShadowContext :=
  if s.is_dirty then
    let state1 := s.ctx.route.tour.acts.foldl
      (fun st a => st.remove_activity_states a) s.ctx.state
    let mid : RouteContext := { route := { tour := s.ctx.route.tour.remove job }, state := state1 }
    { s with ctx := { mid with state := cp.accept_route_state mid } }
  else
    s

/-- concat_activities from evaluators.rs. -/
def concat_activities (activities : Option (List (Activity × ℕ)))
    (activity : Activity × ℕ) : List (Activity × ℕ) :=
  activities.getD [] ++ [activity]

/-- Body of the per-service fold inside evaluate_multi (step 2 and 3 of the
source): threads the mutable shadow alongside the try-fold accumulator. -/
def seqStep (cp : ConstraintPipeline) (shadow : ShadowContext) (in1 : MultiContext)
    (service : Single) : ShadowContext × Except MultiContext MultiContext :=
  if in1.violation.isSome then
    (shadow, Except.error in1)
  else
    let activity := Activity.new_with_job service
    let srv_res := analyze_insertion_in_route cp shadow.ctx none service
      (SingleContext.new none in1.next_index)
    if srv_res.is_success then
      let activity2 := { activity with place := srv_res.place.getD activity.place }
      let ins := ShadowContext.insert cp shadow activity2 srv_res.index
      let activities := concat_activities in1.activities (ins.2, srv_res.index)
      (ins.1, MultiContext.success (in1.cost.getD 0 + srv_res.cost.getD 0) activities)
    else
      (shadow, MultiContext.fail srv_res in1)

/-- try_fold over the services of one permutation, threading the shadow. -/
def seqFold (cp : ConstraintPipeline) :
    ShadowContext → MultiContext → List Single →
    ShadowContext × Except MultiContext MultiContext
  | shadow, acc, [] => (shadow, Except.ok acc)
  | shadow, acc, service :: rest =>
    match seqStep cp shadow acc service with
    | (sh, Except.ok acc2) => seqFold cp sh acc2 rest
    | (sh, Except.error e) => (sh, Except.error e)

/-- Embedding of the inner repeat(0).try_fold loop of evaluate_multi. The
source loop is unbounded but each pass promotes the start index by at least
one, so it exits within activity_count + 2 passes; fuel makes the recursion
structural and callers supply at least that bound. -/
def permLoop (cp : ConstraintPipeline) (rc : RouteContext) (job : Job)
    (services : List Single) : ℕ → ShadowContext → MultiContext → MultiContext
  | 0, _, out => out
  | fuel + 1, shadow, out =>
    if out.is_failure rc.route.tour.activity_count then
      out
    else
      let shadow1 := ShadowContext.restore cp shadow job
      let sq := seqFold cp shadow1 out.next services
      let sq_res := unwrap_from_result sq.2
      match MultiContext.promote sq_res out with
      | Except.error r => r
      | Except.ok r => permLoop cp rc job services fuel sq.1 r

/-- evaluate_multi from evaluators.rs. -/
def evaluate_multi (job : Job) (multi : Multi) (cp : ConstraintPipeline)
    (rc : RouteContext) (position : InsertionPosition) (route_costs : Cost)
    (best_known_cost : Option Cost) : InsertionResult :=
  let insertion_idx := (get_insertion_index rc position).getD 0
  let fuel := rc.route.tour.activity_count + 2
  let result := unwrap_from_result (tryFold
    (fun acc_res services =>
      let shadow := ShadowContext.new rc
      let perm_res := permLoop cp rc job services fuel shadow
        (MultiContext.new none insertion_idx)
      MultiContext.promote perm_res acc_res)
    (MultiContext.new best_known_cost insertion_idx) multi.permutations)
  if result.is_success then
    InsertionResult.make_success (result.cost.getD 0 + route_costs) job
      (result.activities.getD []) rc
  else
    InsertionResult.make_failure_with_code ((result.violation.map (fun v => v.code)).getD 0)
      (some job)

/-- evaluate_job_insertion_in_route from evaluators.rs. -/
def evaluate_job_insertion_in_route (job : Job) (ctx : InsertionContext)
    (route_ctx : RouteContext) (position : InsertionPosition)
    (alternative : InsertionResult) : InsertionResult :=
  let constraint := ctx.constraint
  match constraint.evaluate_hard_route ctx.solution route_ctx job with
  | some violation =>
    InsertionResult.choose_best_result alternative
      (InsertionResult.make_failure_with_code violation.code (some job))
  | none =>
    let route_costs := constraint.evaluate_soft_route ctx.solution route_ctx job
    let best_known_cost :=
      match alternative with
      | InsertionResult.success success => some success.cost
      | _ => none
    if (best_known_cost.map (fun b => decide (b < route_costs))).getD false then
      alternative
    else
      InsertionResult.choose_best_result alternative
        (match job with
         | Job.single single =>
           evaluate_single job single constraint route_ctx position route_costs best_known_cost
         | Job.multi multi =>
           evaluate_multi job multi constraint route_ctx position route_costs best_known_cost)

/-- evaluate_job_constraint_in_route from evaluators.rs. -/
def evaluate_job_constraint_in_route (job : Job) (constraint : ConstraintPipeline)
    (route_ctx : RouteContext) (position : InsertionPosition) : InsertionResult :=
  match job with
  | Job.single single => evaluate_single job single constraint route_ctx position 0 none
  | Job.multi multi => evaluate_multi job multi constraint route_ctx position 0 none

/-- JobRemovalLimit from vrp-core solver::mutation::ruin. -/
structure JobRemovalLimit where
  min : ℕ
  max : ℕ
  threshold : ℚ
deriving DecidableEq, Repr

/-- JobRemovalLimit::default. -/
def JobRemovalLimit.default : JobRemovalLimit :=
  { min := 8, max := 16, threshold := 1 / 10 }

/-- Rust f64::round: round half away from zero. -/
def rustRound (q : ℚ) : ℤ :=
  if 0 ≤ q then ⌊q + 1 / 2⌋ else -⌊-q + 1 / 2⌋

/-- get_removal_chunk_size from ruin/mod.rs; the sampled value of
random.uniform_int(min, max) is passed in as u, and the saturating
float-to-usize cast is Int.toNat. -/
def get_removal_chunk_size (jobsSize unassignedLen ignoredLen : ℕ)
    (limit : JobRemovalLimit) (u : ℤ) : ℕ :=
  let assigned : ℕ := jobsSize - unassignedLen - ignoredLen
  let max_limit : ℕ :=
    (rustRound (min ((assigned : ℚ) * limit.threshold) (limit.max : ℚ))).toNat
  (min u (max_limit : ℤ)).toNat

/-- Termination variants assembled by the config builder (rosomaxa
termination module; children of the CompositeTermination). -/
inductive TerminationDesc where
  | maxGeneration (limit : ℕ)
  | maxTime (limit : ℚ)
  | minVariationSample (value : ℕ) (threshold : ℚ) (isGlobal : Bool) (key : ℕ)
  | minVariationPeriod (value : ℕ) (threshold : ℚ) (isGlobal : Bool) (key : ℕ)
deriving DecidableEq, Repr

/-- Heuristic collaborator chosen by the builder: a custom one, or the
MultiSelective of DynamicSelective (operators) and StaticSelective (group).
Collaborator payloads are opaque tokens. -/
inductive HeuristicChoice where
  | custom (h : ℕ)
  | multiSelective (ops grp : ℕ)
deriving DecidableEq, Repr

/-- Strategy collaborator chosen by the builder: custom or RunSimple(1). -/
inductive StrategyChoice where
  | custom (s : ℕ)
  | runSimpleDefault
deriving DecidableEq, Repr

/-- EvolutionConfigBuilder state (rosomaxa evolution/config.rs); only the
fields read by get_termination and build are kept, collaborators are opaque
tokens. -/
structure EvolutionConfigBuilder where
  max_generations : Option ℕ
  max_time : Option ℕ
  min_cv : Option (String × ℕ × ℚ × Bool × ℕ)
  heuristic : Option ℕ
  population : Option ℕ
  strategy : Option ℕ
  heuristic_operators : Option ℕ
  heuristic_group : Option ℕ
deriving DecidableEq, Repr

/-- Evolution config produced by a successful build (collaborators as
tokens; termination is the child list of the CompositeTermination). -/
structure EvolutionConfigModel where
  termination : List TerminationDesc
  quota : Option ℚ
  heuristic : HeuristicChoice
  population : ℕ
  strategy : StrategyChoice
deriving DecidableEq, Repr

/-- EvolutionConfigBuilder::get_termination: defaults when nothing is set,
otherwise assemble the requested criteria; an unknown variation interval
type is a fatal error. -/
def EvolutionConfigBuilder.get_termination (b : EvolutionConfigBuilder) :
    Except String (List TerminationDesc × Option ℚ) :=
  match b.max_generations, b.max_time, b.min_cv with
  | none, none, none =>
    Except.ok ([TerminationDesc.maxGeneration 3000, TerminationDesc.maxTime 300], some 300)
  | mg, mt, mcv =>
    let ts1 : List TerminationDesc :=
      match mg with
      | some limit => [TerminationDesc.maxGeneration limit]
      | none => []
    let tq : List TerminationDesc × Option ℚ :=
      match mt with
      | some limit => ([TerminationDesc.maxTime (limit : ℚ)], some (limit : ℚ))
      | none => ([], none)
    match mcv with
    | some (interval_type, value, threshold, is_global, key) =>
      if interval_type = ("sample" : String) then
        Except.ok (ts1 ++ tq.1 ++ [TerminationDesc.minVariationSample value threshold is_global key], tq.2)
      else if interval_type = ("period" : String) then
        Except.ok (ts1 ++ tq.1 ++ [TerminationDesc.minVariationPeriod value threshold is_global key], tq.2)
      else
        Except.error (("unknown variation interval type: " : String) ++ interval_type)
    | none => Except.ok (ts1 ++ tq.1, tq.2)

/-- EvolutionConfigBuilder::build. -/
def EvolutionConfigBuilder.build (b : EvolutionConfigBuilder) :
    Except String EvolutionConfigModel := do
  let tq ← b.get_termination
  let heuristic ←
    match b.heuristic with
    | some h => pure (HeuristicChoice.custom h)
    | none => do
      let ops ←
        match b.heuristic_operators with
        | some ops => pure ops
        | none => Except.error ("missing heuristic operators or heuristic" : String)
      let grp ←
        match b.heuristic_group with
        | some grp => pure grp
        | none => Except.error ("missing heuristic group or heuristic" : String)
      pure (HeuristicChoice.multiSelective ops grp)
  let population ←
    match b.population with
    | some p => pure p
    | none => Except.error ("missing heuristic population" : String)
  pure
    { termination := tq.1, quota := tq.2, heuristic := heuristic,
      population := population,
      strategy :=
        match b.strategy with
        | some s => StrategyChoice.custom s
        | none => StrategyChoice.runSimpleDefault }

/-- SelectionPhase from the rosomaxa population module. -/
inductive SelectionPhase where
  | initial
  | exploration
  | exploitation
deriving DecidableEq, Repr

/-- Observable collaborator calls made by one generation of the iterative
strategy. -/
inductive GenEvent (Sol : Type) where
  | diversify (parents : List Sol)
  | search (parents : List Sol)
  | onGeneration (offspring : List Sol)
deriving DecidableEq, Repr

/-- Hyper-heuristic collaborator of the iterative strategy (search and
diversify), as pure functions of the context. -/
structure HyperHeuristicModel (Ctx Sol : Type) where
  search : Ctx → List Sol → List Sol
  diversify : Ctx → List Sol → List Sol

/-- Context collaborator of the iterative strategy: population access,
generation acceptance, termination and quota probes. is_termination may
mutate the context (it takes the context by mutable reference in the
source), hence it returns the updated context. -/
structure HeuristicContextModel (Ctx Sol : Type) where
  select : Ctx → List Sol
  selectionPhase : Ctx → SelectionPhase
  onGeneration : Ctx → List Sol → ℚ → Ctx
  isTermination : Ctx → Ctx × Bool
  isQuotaReached : Ctx → Bool
  estimate : Ctx → ℚ

/-- Body of one generation of Iterative::run (iterative.rs lines 57-73):
select parents, skip diversify in the Exploitation phase, search, chain
search offspring with diverse offspring, and hand them to on_generation.
The event trace records which collaborator calls were made. -/
def runIteration {Ctx Sol : Type} (M : HeuristicContextModel Ctx Sol)
    (H : HyperHeuristicModel Ctx Sol) (ctx : Ctx) : Ctx × List (GenEvent Sol) :=
  let parents := M.select ctx
  let de : List Sol × List (GenEvent Sol) :=
    if M.selectionPhase ctx = SelectionPhase.exploitation then
      ([], [])
    else
      (H.diversify ctx parents, [GenEvent.diversify parents])
  let search_offspring := H.search ctx parents
  let offspring := search_offspring ++ de.1
  let est := M.estimate ctx
  (M.onGeneration ctx offspring est,
   de.2 ++ [GenEvent.search parents, GenEvent.onGeneration offspring])

/-- Outer loop of Iterative::run, with fuel making the recursion
structural: each pass first runs the termination probe (which may mutate
the context), then checks the quota, then runs one generation. -/
def runLoop {Ctx Sol : Type} (M : HeuristicContextModel Ctx Sol)
    (H : HyperHeuristicModel Ctx Sol) : ℕ → Ctx → Ctx × List (GenEvent Sol)
  | 0, ctx => (ctx, [])
  | fuel + 1, ctx =>
    let ts := M.isTermination ctx
    if ts.2 || M.isQuotaReached ts.1 then
      (ts.1, [])
    else
      let step := runIteration M H ts.1
      let rest := runLoop M H fuel step.1
      (rest.1, step.2 ++ rest.2)

/-- RelationType of the pragmatic format (vrp-pragmatic). -/
inductive PragmaticRelationType where
  | Strict
  | Sequence
  | Any
deriving DecidableEq, Repr

/-- RelationType of the legacy HRE format (vrp-cli import/hre.rs models). -/
inductive HreRelationType where
  | Tour
  | Flexible
  | Sequence
deriving DecidableEq, Repr

/-- Pragmatic-to-HRE relation type adapter (hre.rs lines 422-424). -/
def pragmaticToHre : PragmaticRelationType → HreRelationType
  | PragmaticRelationType.Strict => HreRelationType.Sequence
  | PragmaticRelationType.Sequence => HreRelationType.Flexible
  | PragmaticRelationType.Any => HreRelationType.Tour

/-- HRE-to-pragmatic relation type adapter (hre.rs lines 625-627). -/
def hreToPragmatic : HreRelationType → PragmaticRelationType
  | HreRelationType.Sequence => PragmaticRelationType.Strict
  | HreRelationType.Flexible => PragmaticRelationType.Sequence
  | HreRelationType.Tour => PragmaticRelationType.Any

/-! Specification-side definitions: the candidate enumeration of the
single-job scan, its first-minimum selection, and the alternative
next-leg-on-violation reading of the spec, used to compare against the
source behavior. -/

/-- Candidate activity contexts enumerated at one leg, in the (place,
time-window) scan order of analyze_insertion_in_route_leg. -/
def legCands (rc : RouteContext) (single : Single) (leg : Leg) : List ActivityContext :=
  let startTime := (Tour.start rc.route.tour).schedule.departure
  single.places.flatMap (fun detail =>
    detail.times.map (fun tw =>
      { index := leg.index, prev := leg.prev,
        target := candidateTarget single leg.prev detail tw startTime, next := leg.next }))

/-- Every candidate of the route in the (leg, place, time-window) scan
order. -/
def allCands (rc : RouteContext) (single : Single) : List ActivityContext :=
  rc.route.tour.legs.flatMap (legCands rc single)

/-- One candidate evaluation step of the leg scan, on an already-built
activity context; analyze_insertion_in_route_leg is proved below to be the
try-fold of this step over legCands. -/
def candStep (cp : ConstraintPipeline) (rc : RouteContext) (in2 : SingleContext)
    (actx : ActivityContext) : Except SingleContext SingleContext :=
  match cp.evaluate_hard_activity rc actx with
  | some violation => SingleContext.fail violation in2
  | none =>
    let costs := cp.evaluate_soft_activity rc actx
    if costs < in2.cost.getD f64MAX then
      SingleContext.success actx.index costs actx.target.place
    else
      SingleContext.skip in2

/-- Route-level scan over an explicit list of legs; the Any-position path
of analyze_insertion_in_route is exactly this scan over the tour legs from
the start hint. -/
def scanLegs (cp : ConstraintPipeline) (rc : RouteContext) (single : Single)
    (init : SingleContext) (legs : List Leg) : SingleContext :=
  unwrap_from_result
    (tryFold (fun out leg => analyze_insertion_in_route_leg cp rc leg single out) init legs)

/-- Prefix of the candidates actually examined by the scan: everything up
to (and excluding the remainder after) the first candidate whose hard
violation carries stopped = true. -/
def scanned (cp : ConstraintPipeline) (rc : RouteContext) :
    List ActivityContext → List ActivityContext
  | [] => []
  | c :: cs =>
    match cp.evaluate_hard_activity rc c with
    | some v => if v.stopped then [] else c :: scanned cp rc cs
    | none => c :: scanned cp rc cs

/-- First-minimum selection step over legal candidates: strictly cheaper
replaces, ties keep the earlier candidate. -/
def specUpdate (cp : ConstraintPipeline) (rc : RouteContext)
    (st : Option (ℕ × Cost × Place)) (c : ActivityContext) : Option (ℕ × Cost × Place) :=
  match cp.evaluate_hard_activity rc c with
  | some _ => st
  | none =>
    let cost := cp.evaluate_soft_activity rc c
    match st with
    | none => some (c.index, cost, c.target.place)
    | some s => if cost < s.2.1 then some (c.index, cost, c.target.place) else st

/-- First-minimum fold over a candidate list. -/
def specFold (cp : ConstraintPipeline) (rc : RouteContext)
    (st : Option (ℕ × Cost × Place)) (cs : List ActivityContext) :
    Option (ℕ × Cost × Place) :=
  cs.foldl (specUpdate cp rc) st

/-- Relation between a scan state of the source and a first-minimum
selection state. -/
def Agrees (ctx : SingleContext) (st : Option (ℕ × Cost × Place)) : Prop :=
  match st with
  | none => ctx.cost = none ∧ ctx.place = none
  | some s => ctx.index = s.1 ∧ ctx.cost = some s.2.1 ∧ ctx.place = some s.2.2

/-- Helper of specLegScan: iterate the candidates of one leg under the
next-leg reading of the spec. -/
def specLegGo (cp : ConstraintPipeline) (rc : RouteContext) :
    SingleContext → List ActivityContext → Except SingleContext SingleContext
  | out, [] => Except.ok out
  | out, c :: cs =>
    match cp.evaluate_hard_activity rc c with
    | some v =>
      if v.stopped then
        Except.error
          { violation := some v, index := out.index, cost := out.cost, place := out.place }
      else
        Except.ok
          { violation := some v, index := out.index, cost := out.cost, place := out.place }
    | none =>
      let costs := cp.evaluate_soft_activity rc c
      if costs < out.cost.getD f64MAX then
        specLegGo cp rc
          { violation := none, index := c.index, cost := some costs,
            place := some c.target.place } cs
      else
        specLegGo cp rc out cs

/-- Modelled from the spec, claim reading for C3: scanning one leg where a
hard-activity violation with stopped = true aborts the route and a
violation with stopped = false makes the scan continue to the next leg,
abandoning the remaining candidates of the current leg. -/
def specLegScan (cp : ConstraintPipeline) (rc : RouteContext) (single : Single)
    (leg : Leg) (out : SingleContext) : Except SingleContext SingleContext :=
  specLegGo cp rc out (legCands rc single leg)

/-! Concrete instances used by witnesses and counterexamples. -/

/-- Activity at location i with no job reference. -/
def actW (i : ℕ) : Activity :=
  { place := { location := i, duration := 0, time := 0 },
    schedule := { arrival := 0, departure := 0 }, job := none }

/-- Route context with a two-activity tour (one leg). -/
def rcW1 : RouteContext :=
  { route := { tour := { acts := [actW 0, actW 1] } }, state := { entries := [] } }

/-- Route context with a three-activity tour (two legs). -/
def rcW2 : RouteContext :=
  { route := { tour := { acts := [actW 0, actW 1, actW 2] } }, state := { entries := [] } }

/-- Single job with one place and one time window. -/
def singleW : Single := { places := [{ location := some 5, duration := 0, times := [0] }] }

/-- Single job with one place and two time windows. -/
def singleW2 : Single := { places := [{ location := some 5, duration := 0, times := [0, 1] }] }

/-- Pipeline with no hard violations, soft activity cost 5 and soft route
cost 0. -/
def cpFreeW : ConstraintPipeline :=
  { evaluate_hard_route := fun _ _ _ => none
    evaluate_soft_route := fun _ _ _ => 0
    evaluate_hard_activity := fun _ _ => none
    evaluate_soft_activity := fun _ _ => 5
    accept_route_state := fun rc => rc.state }

/-- Pipeline whose hard activity constraint stops (code 7) on leg 0 and
accepts elsewhere. -/
def cpStopW : ConstraintPipeline :=
  { evaluate_hard_route := fun _ _ _ => none
    evaluate_soft_route := fun _ _ _ => 0
    evaluate_hard_activity := fun _ actx =>
      if actx.index = 0 then some { code := 7, stopped := true } else none
    evaluate_soft_activity := fun _ _ => 1
    accept_route_state := fun rc => rc.state }

/-- Pipeline with soft route cost 5 and a negative soft activity cost. -/
def cpNegW : ConstraintPipeline :=
  { evaluate_hard_route := fun _ _ _ => none
    evaluate_soft_route := fun _ _ _ => 5
    evaluate_hard_activity := fun _ _ => none
    evaluate_soft_activity := fun _ _ => -1
    accept_route_state := fun rc => rc.state }

/-- Pipeline whose hard activity constraint emits a non-stopped violation
with code 9 on time window 0 and a non-stopped violation with code 8 on
every other candidate. -/
def cpSkipW : ConstraintPipeline :=
  { evaluate_hard_route := fun _ _ _ => none
    evaluate_soft_route := fun _ _ _ => 0
    evaluate_hard_activity := fun _ actx =>
      if actx.target.place.time = 0 then some { code := 9, stopped := false }
      else some { code := 8, stopped := false }
    evaluate_soft_activity := fun _ _ => 5
    accept_route_state := fun rc => rc.state }

/-- Pipeline whose accept_route_state appends a fresh annotation keyed by
an activity outside every tour, making each re-acceptance observable. -/
def cpDirtyW : ConstraintPipeline :=
  { evaluate_hard_route := fun _ _ _ => none
    evaluate_soft_route := fun _ _ _ => 0
    evaluate_hard_activity := fun _ _ => none
    evaluate_soft_activity := fun _ _ => 0
    accept_route_state := fun ctx => { entries := ctx.state.entries ++ [(actW 9, 7)] } }

/-- Shadow over rcW1 right after one insert (dirty, never restored). -/
def insertedShadowW : ShadowContext :=
  (ShadowContext.insert cpDirtyW (ShadowContext.new rcW1)
    (Activity.new_with_job singleW) 0).1

/-- Shadow over rcW1 after one insert and one restore: nothing was inserted
since the last restore, yet the shadow is still dirty. -/
def dirtyShadowW : ShadowContext :=
  ShadowContext.restore cpDirtyW insertedShadowW (Job.single singleW)

/-- Opaque solution context used by witnesses. -/
def solW : SolutionContext := { id := 0 }

/-- Success alternative of cost 5 used by the pruning witnesses. -/
def altW : InsertionResult :=
  InsertionResult.success
    { cost := 5, job := Job.single singleW, activities := [], context := rcW1 }

/-- Concrete context collaborator (exploitation phase) for the strategy
witness. -/
def ctxModelW : HeuristicContextModel ℕ ℕ :=
  { select := fun _ => [1]
    selectionPhase := fun _ => SelectionPhase.exploitation
    onGeneration := fun c _ _ => c
    isTermination := fun c => (c, false)
    isQuotaReached := fun _ => false
    estimate := fun _ => 0 }

/-- Concrete hyper-heuristic collaborator for the strategy witness. -/
def hyperModelW : HyperHeuristicModel ℕ ℕ :=
  { search := fun _ p => p
    diversify := fun _ p => p ++ p }

/-! Theorems. -/

/-- Appending candidate lists splits a try-fold at the boundary. -/
theorem tryFold_append {α β : Type} (f : β → α → Except β β) (b : β) (l1 l2 : List α) :
    tryFold f b (l1 ++ l2) =
      match tryFold f b l1 with
      | Except.ok c => tryFold f c l2
      | Except.error c => Except.error c := by
  induction l1 generalizing b with
  | nil => simp [tryFold]
  | cons a as ih =>
    simp only [List.cons_append, tryFold]
    cases f b a with
    | ok c => exact ih c
    | error c => rfl

/-- A try-fold over a mapped list folds the composed step. -/
theorem tryFold_map {α γ β : Type} (f : β → γ → Except β β) (g : α → γ) (b : β)
    (l : List α) :
    tryFold f b (l.map g) = tryFold (fun acc x => f acc (g x)) b l := by
  induction l generalizing b with
  | nil => rfl
  | cons a as ih =>
    simp only [List.map_cons, tryFold]
    cases f b (g a) with
    | ok c => exact ih c
    | error c => rfl

/-- Pointwise equal steps give equal try-folds. -/
theorem tryFold_congr {α β : Type} {f g : β → α → Except β β}
    (h : ∀ b a, f b a = g b a) (b : β) (l : List α) :
    tryFold f b l = tryFold g b l := by
  induction l generalizing b with
  | nil => rfl
  | cons a as ih =>
    simp only [tryFold, h b a]
    cases g b a with
    | ok c => exact ih c
    | error c => rfl

/-- A try-fold over a flat-mapped list is the nested try-fold. -/
theorem tryFold_flatMap {α γ β : Type} (f : β → γ → Except β β) (g : α → List γ)
    (b : β) (l : List α) :
    tryFold f b (l.flatMap g) = tryFold (fun acc x => tryFold f acc (g x)) b l := by
  induction l generalizing b with
  | nil => rfl
  | cons a as ih =>
    rw [List.flatMap_cons, tryFold_append]
    simp only [tryFold]
    cases tryFold f b (g a) with
    | ok c => exact ih c
    | error c => rfl

/-- The leg analysis is the try-fold of the candidate step over the leg
candidates in scan order. -/
theorem analyze_leg_eq_tryFold (cp : ConstraintPipeline) (rc : RouteContext)
    (leg : Leg) (single : Single) (out : SingleContext) :
    analyze_insertion_in_route_leg cp rc leg single out =
      tryFold (candStep cp rc) out (legCands rc single leg) := by
  unfold analyze_insertion_in_route_leg legCands
  rw [tryFold_flatMap]
  apply tryFold_congr
  intro b detail
  rw [tryFold_map]
  apply tryFold_congr
  intro b2 tw
  rfl

/-- The Any-position route analysis is the leg scan over the tour legs from
the start hint. -/
theorem analyze_route_eq_scanLegs (cp : ConstraintPipeline) (rc : RouteContext)
    (single : Single) (init : SingleContext) :
    analyze_insertion_in_route cp rc none single init =
      scanLegs cp rc single init (rc.route.tour.legs.drop init.index) := rfl

/-- The Any-position route analysis flattens to the try-fold of the
candidate step over all candidates of the scanned legs. -/
theorem analyze_route_eq_tryFold (cp : ConstraintPipeline) (rc : RouteContext)
    (single : Single) (init : SingleContext) :
    analyze_insertion_in_route cp rc none single init =
      unwrap_from_result (tryFold (candStep cp rc) init
        ((rc.route.tour.legs.drop init.index).flatMap (legCands rc single))) := by
  unfold analyze_insertion_in_route
  congr 1
  rw [tryFold_flatMap]
  exact tryFold_congr (fun b leg => analyze_leg_eq_tryFold cp rc leg single b) init _

/-- C9: the relation-type adapters of hre.rs are mutually inverse
bijections: pragmatic Strict, Sequence, Any map to HRE Sequence, Flexible,
Tour and back to themselves, and conversely. -/
theorem c9_relation_adapters_inverse :
    (∀ r : PragmaticRelationType, hreToPragmatic (pragmaticToHre r) = r) ∧
    (∀ r : HreRelationType, pragmaticToHre (hreToPragmatic r) = r) := by
  constructor <;> intro r <;> cases r <;> rfl

/-- C6: evaluating a single-job insertion at a Concrete position at or
beyond the number of legs of the tour returns a Failure (code 0); the
out-of-range leg lookup is total. -/
theorem c6_concrete_out_of_range_fails (job : Job) (single : Single)
    (cp : ConstraintPipeline) (rc : RouteContext) (route_costs : Cost)
    (best_known : Option Cost) (i : ℕ)
    (h : rc.route.tour.legs.length ≤ i) :
    evaluate_single job single cp rc (InsertionPosition.Concrete i) route_costs best_known =
      InsertionResult.make_failure_with_code 0 (some job) := by
  have hidx : rc.route.tour.legs[i]? = none := List.getElem?_eq_none h
  simp [evaluate_single, analyze_insertion_in_route, get_insertion_index, hidx,
    unwrap_from_result, SingleContext.new, SingleContext.is_success]

/-- Witness for C6 at a one-leg tour and position Concrete 5. -/
theorem c6_witness :
    rcW1.route.tour.legs.length ≤ 5 ∧
    evaluate_single (Job.single singleW) singleW cpFreeW rcW1
      (InsertionPosition.Concrete 5) 0 none =
      InsertionResult.make_failure_with_code 0 (some (Job.single singleW)) :=
  ⟨by decide, c6_concrete_out_of_range_fails _ _ _ _ _ _ _ (by decide)⟩

/-- Rounding half away from zero is monotone. -/
theorem rustRound_mono {q1 q2 : ℚ} (h : q1 ≤ q2) : rustRound q1 ≤ rustRound q2 := by
  unfold rustRound
  by_cases h1 : 0 ≤ q1 <;> by_cases h2 : 0 ≤ q2
  · rw [if_pos h1, if_pos h2]
    exact Int.floor_le_floor (by linarith)
  · exact (h2 (le_trans h1 h)).elim
  · rw [if_neg h1, if_pos h2]
    have ha : (0 : ℤ) ≤ ⌊-q1 + 1 / 2⌋ := by
      apply Int.le_floor.mpr
      push_cast
      linarith
    have hb : (0 : ℤ) ≤ ⌊q2 + 1 / 2⌋ := by
      apply Int.le_floor.mpr
      push_cast
      linarith
    omega
  · rw [if_neg h1, if_neg h2]
    have := Int.floor_le_floor (show -q2 + 1 / 2 ≤ -q1 + 1 / 2 by linarith)
    omega

/-- C4 counterexample: with three assigned jobs, threshold one half and a
uniform sample of 2 from min = max = 2, the code selects 2 jobs while the
floor of assigned times threshold is 1. -/
theorem c4_chunk_floor_cex :
    get_removal_chunk_size 3 0 0 { min := 2, max := 2, threshold := 1 / 2 } 2 = 2 ∧
    (⌊((3 - 0 - 0 : ℕ) : ℚ) * (1 / 2)⌋).toNat = 1 ∧
    ¬ get_removal_chunk_size 3 0 0 { min := 2, max := 2, threshold := 1 / 2 } 2 ≤
        (⌊((3 - 0 - 0 : ℕ) : ℚ) * (1 / 2)⌋).toNat := by
  refine ⟨?_, ?_, ?_⟩
  · norm_num [get_removal_chunk_size, rustRound, Int.floor_eq_iff]
    rfl
  · norm_num [get_removal_chunk_size, rustRound, Int.floor_eq_iff]
  · norm_num [get_removal_chunk_size, rustRound, Int.floor_eq_iff]

/-- C4 amended: the removal chunk size equals the uniform sample clamped
between 0 and the rounded (half away from zero, as f64::round) cap
min(assigned so threshold, max); in particular it never exceeds the rounding
of assigned times threshold. The source rounds where the claim floors. -/
theorem c4_chunk_size_clamp (jobsSize unassignedLen ignoredLen : ℕ)
    (limit : JobRemovalLimit) (u : ℤ) :
    get_removal_chunk_size jobsSize unassignedLen ignoredLen limit u =
      (min (max u 0)
        (rustRound (min (((jobsSize - unassignedLen - ignoredLen : ℕ) : ℚ) * limit.threshold)
          (limit.max : ℚ)))).toNat ∧
    get_removal_chunk_size jobsSize unassignedLen ignoredLen limit u ≤
      (rustRound (((jobsSize - unassignedLen - ignoredLen : ℕ) : ℚ) * limit.threshold)).toNat := by
  have hmono := rustRound_mono
    (min_le_left (((jobsSize - unassignedLen - ignoredLen : ℕ) : ℚ) * limit.threshold)
      (limit.max : ℚ))
  simp only [get_removal_chunk_size]
  constructor <;> omega

/-- EvolutionConfigBuilder::get_termination errors exactly on an unknown
variation interval type. -/
theorem get_termination_error_iff (b : EvolutionConfigBuilder) :
    (∃ msg, b.get_termination = Except.error msg) ↔
      (∃ t v th g k, b.min_cv = some (t, v, th, g, k) ∧
        t ≠ ("sample" : String) ∧ t ≠ ("period" : String)) := by
  rcases b with ⟨mg, mt, mcv, h, p, s, ho, hg⟩
  cases mg <;> cases mt <;> rcases mcv with _ | ⟨t, v, th, g, k⟩ <;>
    simp only [EvolutionConfigBuilder.get_termination] <;>
    first
      | (simp; done)
      | (by_cases ht1 : t = ("sample" : String) <;>
         by_cases ht2 : t = ("period" : String) <;>
         simp [ht1, ht2])

/-- C7: EvolutionConfigBuilder::build fails exactly when the min_cv
interval type is neither sample nor period, or no custom heuristic is set
while heuristic operators or heuristic group are missing, or the population
is missing; no other input makes build fail. -/
theorem c7_build_error_conditions (b : EvolutionConfigBuilder) :
    (∃ msg, b.build = Except.error msg) ↔
      ((∃ t v th g k, b.min_cv = some (t, v, th, g, k) ∧
          t ≠ ("sample" : String) ∧ t ≠ ("period" : String)) ∨
       (b.heuristic = none ∧
          (b.heuristic_operators = none ∨ b.heuristic_group = none)) ∨
       b.population = none) := by
  cases hgt : b.get_termination with
  | error m =>
    have hl : ∃ msg, b.build = Except.error msg :=
      ⟨m, by simp [EvolutionConfigBuilder.build, hgt, Bind.bind, Except.bind]⟩
    have hr := (get_termination_error_iff b).mp ⟨m, hgt⟩
    exact iff_of_true hl (Or.inl hr)
  | ok tq =>
    have hnocv : ¬ ∃ t v th g k, b.min_cv = some (t, v, th, g, k) ∧
        t ≠ ("sample" : String) ∧ t ≠ ("period" : String) := by
      intro hcv
      rcases (get_termination_error_iff b).mpr hcv with ⟨m, hm⟩
      rw [hgt] at hm
      cases hm
    have hcv2 : ∀ t v th g k, b.min_cv = some (t, v, th, g, k) →
        t = ("sample" : String) ∨ t = ("period" : String) := by
      intro t v th g k hsome
      by_contra hcon
      push_neg at hcon
      exact hnocv ⟨t, v, th, g, k, hsome, hcon.1, hcon.2⟩
    rcases hcv : b.min_cv with _ | ⟨t, v, th, g2, k⟩ <;>
      [skip; (rcases hcv2 t v th g2 k hcv with ht | ht <;> subst ht)] <;>
      rcases hh : b.heuristic with _ | hv <;>
      rcases hp : b.population with _ | pv <;>
      rcases hho : b.heuristic_operators with _ | ov <;>
      rcases hhg : b.heuristic_group with _ | gv <;>
      simp [EvolutionConfigBuilder.build, hgt, hh, hp, hho, hhg, hcv,
        Bind.bind, Except.bind, pure, Except.pure]

/-- C2 amended: when the Success alternative cost is strictly below the
soft route cost, evaluate_job_insertion_in_route returns the alternative
unchanged, pruning the route before any leg is scanned (at equal costs the
route is still scanned, see the counterexample). -/
theorem c2_route_pruning (job : Job) (ctx : InsertionContext) (rc : RouteContext)
    (position : InsertionPosition) (alternative : InsertionResult) (s : InsertionSuccess)
    (halt : alternative = InsertionResult.success s)
    (hcost : s.cost < ctx.constraint.evaluate_soft_route ctx.solution rc job) :
    evaluate_job_insertion_in_route job ctx rc position alternative = alternative := by
  subst halt
  unfold evaluate_job_insertion_in_route
  cases hr : ctx.constraint.evaluate_hard_route ctx.solution rc job with
  | some v =>
    simp [hr, InsertionResult.choose_best_result, InsertionResult.make_failure_with_code]
  | none => simp [hr, hcost]

/-- Witness for C2 at a concrete pruned route. -/
theorem c2_witness :
    evaluate_job_insertion_in_route (Job.single singleW)
      { constraint := cpNegW, solution := solW } rcW1 InsertionPosition.Any
      (InsertionResult.success
        { cost := 4, job := Job.single singleW, activities := [], context := rcW1 }) =
      InsertionResult.success
        { cost := 4, job := Job.single singleW, activities := [], context := rcW1 } :=
  c2_route_pruning _ _ _ _ _ _ rfl (by norm_num [cpNegW])

/-- Counterexample for C2 as stated: with route cost 5 equal to the best
known cost 5 the route is not pruned, and a negative soft activity cost
makes the evaluation return a result different from the alternative. -/
theorem c2_route_pruning_cex :
    cpNegW.evaluate_soft_route solW rcW1 (Job.single singleW) ≥ 5 ∧
    altW = InsertionResult.success
      { cost := 5, job := Job.single singleW, activities := [], context := rcW1 } ∧
    evaluate_job_insertion_in_route (Job.single singleW)
      { constraint := cpNegW, solution := solW } rcW1 InsertionPosition.Any altW ≠ altW := by
  refine ⟨by norm_num [cpNegW], rfl, ?_⟩
  have heval : evaluate_job_insertion_in_route (Job.single singleW)
      { constraint := cpNegW, solution := solW } rcW1 InsertionPosition.Any altW =
      InsertionResult.success
        { cost := 4, job := Job.single singleW,
          activities := [({ place := { location := 5, duration := 0, time := 0 },
                            schedule := { arrival := 0, departure := 0 },
                            job := some singleW }, 0)],
          context := rcW1 } := by
    norm_num [evaluate_job_insertion_in_route, cpNegW, solW, altW, rcW1, singleW, actW,
      evaluate_single, analyze_insertion_in_route, analyze_insertion_in_route_leg, tryFold,
      get_insertion_index, SingleContext.new, SingleContext.fail, SingleContext.success,
      SingleContext.skip, SingleContext.is_success, unwrap_from_result, Tour.legs, Tour.start,
      legsAux, candidateTarget, Activity.new_with_job, toTimeWindowTok,
      InsertionResult.make_success, InsertionResult.choose_best_result, f64MAX]
  rw [heval]
  norm_num [altW]

/-- Choosing against a Success alternative never yields anything worse. -/
theorem choose_best_success_le (s : InsertionSuccess) (r : InsertionResult) :
    ∃ s2, InsertionResult.choose_best_result (InsertionResult.success s) r =
      InsertionResult.success s2 ∧ s2.cost ≤ s.cost := by
  cases r with
  | success r2 =>
    by_cases hlt : r2.cost < s.cost
    · exact ⟨r2, by simp [InsertionResult.choose_best_result, hlt], le_of_lt hlt⟩
    · exact ⟨s, by simp [InsertionResult.choose_best_result, hlt], le_refl _⟩
  | failure f => exact ⟨s, rfl, le_refl _⟩

/-- C10: evaluate_job_insertion_in_route never returns a result worse than
the alternative: a Success alternative of cost B yields a Success result of
cost at most B, for every job (Single or Multi), route and position. -/
theorem c10_never_worse (job : Job) (ctx : InsertionContext) (rc : RouteContext)
    (position : InsertionPosition) (alternative : InsertionResult) (s : InsertionSuccess)
    (halt : alternative = InsertionResult.success s) :
    ∃ s2, evaluate_job_insertion_in_route job ctx rc position alternative =
      InsertionResult.success s2 ∧ s2.cost ≤ s.cost := by
  subst halt
  unfold evaluate_job_insertion_in_route
  cases hr : ctx.constraint.evaluate_hard_route ctx.solution rc job with
  | some v =>
    simp only [hr]
    exact choose_best_success_le s _
  | none =>
    simp only [hr]
    by_cases hb : s.cost < ctx.constraint.evaluate_soft_route ctx.solution rc job
    · have hcond : (Option.map
          (fun b => decide (b < ctx.constraint.evaluate_soft_route ctx.solution rc job))
          (some s.cost)).getD false = true := by simp [hb]
      rw [if_pos hcond]
      exact ⟨s, rfl, le_refl _⟩
    · have hcond : ¬ (Option.map
          (fun b => decide (b < ctx.constraint.evaluate_soft_route ctx.solution rc job))
          (some s.cost)).getD false = true := by simp [hb]
      rw [if_neg hcond]
      exact choose_best_success_le s _

/-- Witness for C10 at a concrete route and Success alternative. -/
theorem c10_witness :
    ∃ s2, evaluate_job_insertion_in_route (Job.single singleW)
        { constraint := cpFreeW, solution := solW } rcW1 InsertionPosition.Any altW =
      InsertionResult.success s2 ∧ s2.cost ≤ 5 :=
  c10_never_worse _ _ _ _ _
    { cost := 5, job := Job.single singleW, activities := [], context := rcW1 } rfl

/-- C5 amended: a shadow never mutated since its creation restores to
itself and its context is exactly the original route context; insert marks
the shadow dirty and restore never clears the dirty flag (evaluators.rs
does not reset is_dirty), so every restore of a dirty shadow - after any
insert, and equally after a previous restore - removes every activity of
the job from the shadow tour, re-accepts the route state on the cleaned
context, and leaves the shadow dirty. -/
theorem c5_shadow_restore (cp : ConstraintPipeline) (rc : RouteContext) (job : Job)
    (s : ShadowContext) (a : Activity) (idx : ℕ) :
    (ShadowContext.restore cp (ShadowContext.new rc) job = ShadowContext.new rc ∧
     (ShadowContext.new rc).ctx = rc) ∧
    ((ShadowContext.insert cp s a idx).1.is_dirty = true) ∧
    (∀ s2 : ShadowContext, s2.is_dirty = true →
      (ShadowContext.restore cp s2 job).is_dirty = true ∧
      (∀ act ∈ (ShadowContext.restore cp s2 job).ctx.route.tour.acts,
        act.belongsTo job = false) ∧
      (ShadowContext.restore cp s2 job).ctx.state =
        cp.accept_route_state
          { route := { tour := s2.ctx.route.tour.remove job }
            state := s2.ctx.route.tour.acts.foldl
              (fun st act => st.remove_activity_states act) s2.ctx.state }) := by
  refine ⟨⟨rfl, rfl⟩, rfl, ?_⟩
  intro s2 hd
  have hrw : ShadowContext.restore cp s2 job =
      { s2 with ctx :=
        { route := { tour := s2.ctx.route.tour.remove job }
          state := cp.accept_route_state
            { route := { tour := s2.ctx.route.tour.remove job }
              state := s2.ctx.route.tour.acts.foldl
                (fun st act => st.remove_activity_states act) s2.ctx.state } } } := by
    unfold ShadowContext.restore
    rw [if_pos hd]
  refine ⟨?_, ?_, ?_⟩
  · rw [hrw]
    exact hd
  · intro act hact
    rw [hrw] at hact
    simp only [Tour.remove, List.mem_filter] at hact
    simpa using hact.2
  · rw [hrw]

/-- Witness for C5: over rcW1 the insert is dirty, and restoring the
already-restored (still dirty) shadow again removes the job activities and
re-accepts state, staying dirty. -/
theorem c5_witness :
    insertedShadowW.is_dirty = true ∧
    ((ShadowContext.restore cpDirtyW dirtyShadowW (Job.single singleW)).is_dirty = true ∧
     (∀ act ∈ (ShadowContext.restore cpDirtyW dirtyShadowW
        (Job.single singleW)).ctx.route.tour.acts,
       act.belongsTo (Job.single singleW) = false) ∧
     (ShadowContext.restore cpDirtyW dirtyShadowW (Job.single singleW)).ctx.state =
       cpDirtyW.accept_route_state
         { route := { tour := dirtyShadowW.ctx.route.tour.remove (Job.single singleW) }
           state := dirtyShadowW.ctx.route.tour.acts.foldl
             (fun st act => st.remove_activity_states act) dirtyShadowW.ctx.state }) :=
  ⟨(c5_shadow_restore cpDirtyW rcW1 (Job.single singleW) (ShadowContext.new rcW1)
      (Activity.new_with_job singleW) 0).2.1,
   (c5_shadow_restore cpDirtyW rcW1 (Job.single singleW) (ShadowContext.new rcW1)
      (Activity.new_with_job singleW) 0).2.2 dirtyShadowW (by decide)⟩

/-- Counterexample for C5 as stated: dirtyShadowW had no sub-task inserted
since its last restore, yet restoring it again is not skipped (the state
gains another accepted annotation, so the shadow changes) and its context
is not the original route context (stale annotations survive). -/
theorem c5_restore_cex :
    ShadowContext.restore cpDirtyW dirtyShadowW (Job.single singleW) ≠ dirtyShadowW ∧
    dirtyShadowW.ctx ≠ rcW1 := by
  constructor <;> decide

/-- C8: in every generation of the iterative strategy, diversify is not
invoked (no diversify event, empty diverse offspring) exactly when the
population reports the Exploitation phase, and the offspring batch handed
to on_generation is always the search offspring followed by the diverse
offspring. -/
theorem c8_generation_offspring {Ctx Sol : Type} (M : HeuristicContextModel Ctx Sol)
    (H : HyperHeuristicModel Ctx Sol) (ctx : Ctx) :
    (runIteration M H ctx).2 =
      (if M.selectionPhase ctx = SelectionPhase.exploitation then ([] : List (GenEvent Sol))
       else [GenEvent.diversify (M.select ctx)]) ++
      [GenEvent.search (M.select ctx),
       GenEvent.onGeneration (H.search ctx (M.select ctx) ++
         (if M.selectionPhase ctx = SelectionPhase.exploitation then ([] : List Sol)
          else H.diversify ctx (M.select ctx)))] ∧
    (M.selectionPhase ctx = SelectionPhase.exploitation →
      ∀ ps, GenEvent.diversify ps ∉ (runIteration M H ctx).2) := by
  unfold runIteration
  by_cases h : M.selectionPhase ctx = SelectionPhase.exploitation <;> simp [h]

/-- Witness for C8 at a concrete exploitation-phase context. -/
theorem c8_witness :
    (runIteration ctxModelW hyperModelW 0).2 =
      [GenEvent.search [1], GenEvent.onGeneration ([1] ++ [])] ∧
    GenEvent.diversify [2] ∉ (runIteration ctxModelW hyperModelW 0).2 := by
  have h := c8_generation_offspring ctxModelW hyperModelW 0
  refine ⟨?_, h.2 rfl [2]⟩
  have h1 := h.1
  simpa [ctxModelW, hyperModelW] using h1

/-- A candidate step errors only through a stopped hard-activity violation,
which it records. -/
theorem candStep_error (cp : ConstraintPipeline) (rc : RouteContext)
    (b : SingleContext) (c : ActivityContext) (ctx : SingleContext)
    (h : candStep cp rc b c = Except.error ctx) :
    ∃ v, cp.evaluate_hard_activity rc c = some v ∧ v.stopped = true ∧
      ctx.violation = some v := by
  unfold candStep at h
  cases hv : cp.evaluate_hard_activity rc c with
  | none =>
    rw [hv] at h
    simp only [SingleContext.success, SingleContext.skip] at h
    split at h <;> cases h
  | some v =>
    rw [hv] at h
    dsimp only at h
    by_cases hs : v.stopped = true
    · have hfail : SingleContext.fail v b = Except.error
          { violation := some v, index := b.index, cost := b.cost, place := b.place } := by
        simp [SingleContext.fail, hs]
      rw [hfail] at h
      cases h
      exact ⟨v, rfl, hs, rfl⟩
    · have hfail : SingleContext.fail v b = Except.ok
          { violation := some v, index := b.index, cost := b.cost, place := b.place } := by
        simp [SingleContext.fail, hs]
      rw [hfail] at h
      cases h

/-- A candidate try-fold errors only with a stopped violation recorded. -/
theorem tryFold_error_stopped (cp : ConstraintPipeline) (rc : RouteContext)
    (cs : List ActivityContext) (b ctx : SingleContext)
    (h : tryFold (candStep cp rc) b cs = Except.error ctx) :
    ∃ v, ctx.violation = some v ∧ v.stopped = true := by
  induction cs generalizing b with
  | nil => cases h
  | cons c cs ih =>
    unfold tryFold at h
    cases hc : candStep cp rc b c with
    | ok b2 =>
      rw [hc] at h
      exact ih b2 h
    | error ctx2 =>
      rw [hc] at h
      cases h
      rcases candStep_error cp rc b c _ hc with ⟨v, _, hs, hrec⟩
      exact ⟨v, hrec, hs⟩

/-- C3 amended: a hard-activity violation with stopped = true aborts the
scan of the whole route immediately (no later leg is examined) and its
violation is recorded; a violation with stopped = false leaves the scan
running: the step succeeds with the violation recorded and the scan
continues with the next candidate of the same leg and then the later legs
(the source does not jump straight to the next leg, see the
counterexample). -/
theorem c3_stopped_aborts_route (cp : ConstraintPipeline) (rc : RouteContext)
    (single : Single) :
    (∀ leg out ctx rest,
      analyze_insertion_in_route_leg cp rc leg single out = Except.error ctx →
      (∃ v, ctx.violation = some v ∧ v.stopped = true) ∧
      scanLegs cp rc single out (leg :: rest) = ctx) ∧
    (∀ out actx v, cp.evaluate_hard_activity rc actx = some v → v.stopped = false →
      candStep cp rc out actx = Except.ok
        { violation := some v, index := out.index, cost := out.cost, place := out.place }) := by
  constructor
  · intro leg out ctx rest herr
    constructor
    · have h2 : tryFold (candStep cp rc) out (legCands rc single leg) =
          Except.error ctx := by
        rw [← analyze_leg_eq_tryFold]
        exact herr
      exact tryFold_error_stopped cp rc _ out ctx h2
    · simp only [scanLegs, tryFold, herr, unwrap_from_result]
  · intro out actx v hv hstop
    simp [candStep, hv, SingleContext.fail, hstop]

/-- Witness for C3: a stopped violation at leg 0 aborts a two-leg route
scan with code 7 recorded, and a non-stopped violation (code 9) lets the
candidate step succeed with the violation recorded. -/
theorem c3_witness :
    ((∃ v, (SingleContext.mk (some (Violation.mk 7 true)) 0 none none).violation = some v ∧
        v.stopped = true) ∧
      scanLegs cpStopW rcW2 singleW (SingleContext.new none 0)
        (Leg.mk (actW 0) (some (actW 1)) 0 :: [Leg.mk (actW 1) (some (actW 2)) 1]) =
        SingleContext.mk (some (Violation.mk 7 true)) 0 none none) ∧
    candStep cpSkipW rcW1 (SingleContext.new none 0)
      (ActivityContext.mk 0 (actW 0)
        (Activity.mk (Place.mk 5 0 0) (Schedule.mk 0 0) (some singleW2)) (some (actW 1))) =
      Except.ok (SingleContext.mk (some (Violation.mk 9 false)) 0 none none) :=
  ⟨(c3_stopped_aborts_route cpStopW rcW2 singleW).1
      (Leg.mk (actW 0) (some (actW 1)) 0)
      (SingleContext.new none 0)
      (SingleContext.mk (some (Violation.mk 7 true)) 0 none none)
      [Leg.mk (actW 1) (some (actW 2)) 1] (by rfl),
   (c3_stopped_aborts_route cpSkipW rcW1 singleW2).2 (SingleContext.new none 0) _
      (Violation.mk 9 false) (by rfl) rfl⟩

/-- Counterexample for C3 as stated: on a leg whose first time window
draws a non-stopped violation (code 9) and whose second draws another
(code 8), the source keeps scanning inside the same leg and records code
8, while the continue-to-next-leg reading abandons the leg with code 9
still recorded; the two scans differ. -/
theorem c3_continue_cex :
    analyze_insertion_in_route_leg cpSkipW rcW1
      { prev := actW 0, next := some (actW 1), index := 0 } singleW2
      (SingleContext.new none 0) ≠
    specLegScan cpSkipW rcW1 singleW2
      { prev := actW 0, next := some (actW 1), index := 0 }
      (SingleContext.new none 0) := by
  intro h
  have h1 : analyze_insertion_in_route_leg cpSkipW rcW1
      (Leg.mk (actW 0) (some (actW 1)) 0) singleW2 (SingleContext.new none 0) =
      Except.ok (SingleContext.mk (some (Violation.mk 8 false)) 0 none none) := by rfl
  have h2 : specLegScan cpSkipW rcW1 singleW2 (Leg.mk (actW 0) (some (actW 1)) 0)
      (SingleContext.new none 0) =
      Except.ok (SingleContext.mk (some (Violation.mk 9 false)) 0 none none) := by rfl
  rw [h1, h2] at h
  cases h

/-- Agreement only depends on the index, cost and place fields. -/
theorem Agrees.of_fields {ctx ctx2 : SingleContext} {st : Option (ℕ × Cost × Place)}
    (h : Agrees ctx st) (hi : ctx2.index = ctx.index) (hc : ctx2.cost = ctx.cost)
    (hp : ctx2.place = ctx.place) : Agrees ctx2 st := by
  cases st with
  | none => exact ⟨hc.trans h.1, hp.trans h.2⟩
  | some s => exact ⟨hi.trans h.1, hc.trans h.2.1, hp.trans h.2.2⟩

/-- Invariant of the candidate scan: the incumbent (index, cost, place) of
the source scan state tracks the first-minimum selection over the scanned
legal candidates, provided every scanned legal candidate prices below
f64MAX. -/
theorem scan_agrees (cp : ConstraintPipeline) (rc : RouteContext) :
    ∀ (cs : List ActivityContext) (ctx : SingleContext) (st : Option (ℕ × Cost × Place)),
      Agrees ctx st →
      (∀ c ∈ scanned cp rc cs, cp.evaluate_hard_activity rc c = none →
        cp.evaluate_soft_activity rc c < f64MAX) →
      Agrees (unwrap_from_result (tryFold (candStep cp rc) ctx cs))
        (specFold cp rc st (scanned cp rc cs)) := by
  intro cs
  induction cs with
  | nil =>
    intro ctx st hag _
    exact hag
  | cons c cs ih =>
    intro ctx st hag hfin
    cases hv : cp.evaluate_hard_activity rc c with
    | some v =>
      by_cases hs : v.stopped = true
      · have hstep : candStep cp rc ctx c = Except.error
            { violation := some v, index := ctx.index, cost := ctx.cost,
              place := ctx.place } := by
          simp [candStep, hv, SingleContext.fail, hs]
        have hscan : scanned cp rc (c :: cs) = [] := by
          simp [scanned, hv, hs]
        rw [hscan]
        have hfold : tryFold (candStep cp rc) ctx (c :: cs) = Except.error
            { violation := some v, index := ctx.index, cost := ctx.cost,
              place := ctx.place } := by
          simp [tryFold, hstep]
        rw [hfold]
        exact Agrees.of_fields hag rfl rfl rfl
      · have hstep : candStep cp rc ctx c = Except.ok
            { violation := some v, index := ctx.index, cost := ctx.cost,
              place := ctx.place } := by
          simp [candStep, hv, SingleContext.fail, hs]
        have hscan : scanned cp rc (c :: cs) = c :: scanned cp rc cs := by
          simp [scanned, hv, hs]
        have hupd : specUpdate cp rc st c = st := by
          simp [specUpdate, hv]
        have hfold : tryFold (candStep cp rc) ctx (c :: cs) = tryFold (candStep cp rc)
            { violation := some v, index := ctx.index, cost := ctx.cost,
              place := ctx.place } cs := by
          simp [tryFold, hstep]
        rw [hscan, hfold]
        show Agrees _ (specFold cp rc (specUpdate cp rc st c) (scanned cp rc cs))
        rw [hupd]
        refine ih _ st (Agrees.of_fields hag rfl rfl rfl) ?_
        intro c2 hc2 hl2
        exact hfin c2 (by rw [hscan]; exact List.mem_cons_of_mem c hc2) hl2
    | none =>
      have hscan : scanned cp rc (c :: cs) = c :: scanned cp rc cs := by
        simp [scanned, hv]
      have hfintail : ∀ c2 ∈ scanned cp rc cs,
          cp.evaluate_hard_activity rc c2 = none →
          cp.evaluate_soft_activity rc c2 < f64MAX := by
        intro c2 hc2 hl2
        exact hfin c2 (by rw [hscan]; exact List.mem_cons_of_mem c hc2) hl2
      have hcfin : cp.evaluate_soft_activity rc c < f64MAX :=
        hfin c (by rw [hscan]; exact List.mem_cons_self c _) hv
      rw [hscan]
      show Agrees _ (specFold cp rc (specUpdate cp rc st c) (scanned cp rc cs))
      cases st with
      | none =>
        have hcond : cp.evaluate_soft_activity rc c < ctx.cost.getD f64MAX := by
          rw [hag.1]
          exact hcfin
        have hstep : candStep cp rc ctx c = Except.ok
            { violation := none, index := c.index,
              cost := some (cp.evaluate_soft_activity rc c),
              place := some c.target.place } := by
          simp [candStep, hv, SingleContext.success, hcond]
        have hupd : specUpdate cp rc none c =
            some (c.index, cp.evaluate_soft_activity rc c, c.target.place) := by
          simp [specUpdate, hv]
        have hfold : tryFold (candStep cp rc) ctx (c :: cs) = tryFold (candStep cp rc)
            { violation := none, index := c.index,
              cost := some (cp.evaluate_soft_activity rc c),
              place := some c.target.place } cs := by
          simp [tryFold, hstep]
        rw [hfold, hupd]
        exact ih _ _ ⟨rfl, rfl, rfl⟩ hfintail
      | some s =>
        by_cases hlt : cp.evaluate_soft_activity rc c < s.2.1
        · have hcond : cp.evaluate_soft_activity rc c < ctx.cost.getD f64MAX := by
            rw [hag.2.1]
            exact hlt
          have hstep : candStep cp rc ctx c = Except.ok
              { violation := none, index := c.index,
                cost := some (cp.evaluate_soft_activity rc c),
                place := some c.target.place } := by
            simp [candStep, hv, SingleContext.success, hcond]
          have hupd : specUpdate cp rc (some s) c =
              some (c.index, cp.evaluate_soft_activity rc c, c.target.place) := by
            simp [specUpdate, hv, hlt]
          have hfold : tryFold (candStep cp rc) ctx (c :: cs) = tryFold (candStep cp rc)
              { violation := none, index := c.index,
                cost := some (cp.evaluate_soft_activity rc c),
                place := some c.target.place } cs := by
            simp [tryFold, hstep]
          rw [hfold, hupd]
          exact ih _ _ ⟨rfl, rfl, rfl⟩ hfintail
        · have hcond : ¬ cp.evaluate_soft_activity rc c < ctx.cost.getD f64MAX := by
            rw [hag.2.1]
            exact hlt
          have hstep : candStep cp rc ctx c = Except.ok ctx := by
            simp [candStep, hv, SingleContext.skip, hcond]
          have hupd : specUpdate cp rc (some s) c = some s := by
            simp [specUpdate, hv, hlt]
          have hfold : tryFold (candStep cp rc) ctx (c :: cs) =
              tryFold (candStep cp rc) ctx cs := by
            simp [tryFold, hstep]
          rw [hfold, hupd]
          exact ih _ _ hag hfintail

/-- Characterization of the first-minimum fold started from an incumbent:
the result never loses to the incumbent, is a lower bound on every legal
candidate, and is either the incumbent itself or the earliest strictly
cheaper legal candidate of the list. -/
theorem specFold_some_char (cp : ConstraintPipeline) (rc : RouteContext) :
    ∀ (l : List ActivityContext) (x : ℕ × Cost × Place),
      ∃ y, specFold cp rc (some x) l = some y ∧ y.2.1 ≤ x.2.1 ∧
        (∀ c ∈ l, cp.evaluate_hard_activity rc c = none →
          y.2.1 ≤ cp.evaluate_soft_activity rc c) ∧
        (y = x ∨ ∃ pre cand post, l = pre ++ cand :: post ∧
          cp.evaluate_hard_activity rc cand = none ∧
          cp.evaluate_soft_activity rc cand = y.2.1 ∧ cand.index = y.1 ∧
          cand.target.place = y.2.2 ∧ y.2.1 < x.2.1 ∧
          (∀ c ∈ pre, cp.evaluate_hard_activity rc c = none →
            y.2.1 < cp.evaluate_soft_activity rc c)) := by
  intro l
  induction l with
  | nil =>
    intro x
    exact ⟨x, rfl, le_refl _, by simp, Or.inl rfl⟩
  | cons c rest ih =>
    intro x
    cases hv : cp.evaluate_hard_activity rc c with
    | some v =>
      obtain ⟨y, hy, hle, hmin, hdec⟩ := ih x
      have hupd : specUpdate cp rc (some x) c = some x := by
        simp [specUpdate, hv]
      refine ⟨y, ?_, hle, ?_, ?_⟩
      · show specFold cp rc (specUpdate cp rc (some x) c) rest = some y
        rw [hupd]
        exact hy
      · intro c2 hc2 hl2
        rcases List.mem_cons.mp hc2 with h2 | h2
        · subst h2
          rw [hv] at hl2
          cases hl2
        · exact hmin c2 h2 hl2
      · rcases hdec with h | ⟨pre, cand, post, heq, hcand, hsoft, hidx, hplace, hylt, hpre⟩
        · exact Or.inl h
        · refine Or.inr ⟨c :: pre, cand, post, by simp [heq], hcand, hsoft, hidx, hplace,
            hylt, ?_⟩
          intro c2 hc2 hl2
          rcases List.mem_cons.mp hc2 with h2 | h2
          · subst h2
            rw [hv] at hl2
            cases hl2
          · exact hpre c2 h2 hl2
    | none =>
      by_cases hlt : cp.evaluate_soft_activity rc c < x.2.1
      · obtain ⟨y, hy, hle, hmin, hdec⟩ :=
          ih (c.index, cp.evaluate_soft_activity rc c, c.target.place)
        have hupd : specUpdate cp rc (some x) c =
            some (c.index, cp.evaluate_soft_activity rc c, c.target.place) := by
          simp [specUpdate, hv, hlt]
        have hyx : y.2.1 < x.2.1 := lt_of_le_of_lt hle hlt
        refine ⟨y, ?_, le_of_lt hyx, ?_, ?_⟩
        · show specFold cp rc (specUpdate cp rc (some x) c) rest = some y
          rw [hupd]
          exact hy
        · intro c2 hc2 hl2
          rcases List.mem_cons.mp hc2 with h2 | h2
          · subst h2
            exact le_trans hle (le_of_eq rfl)
          · exact hmin c2 h2 hl2
        · rcases hdec with h | ⟨pre, cand, post, heq, hcand, hsoft, hidx, hplace, hylt, hpre⟩
          · refine Or.inr ⟨[], c, rest, rfl, hv, ?_, ?_, ?_, ?_, by simp⟩
            · rw [h]
            · rw [h]
            · rw [h]
            · rw [h]
              exact hlt
          · refine Or.inr ⟨c :: pre, cand, post, by simp [heq], hcand, hsoft, hidx, hplace,
              lt_trans hylt hlt, ?_⟩
            intro c2 hc2 hl2
            rcases List.mem_cons.mp hc2 with h2 | h2
            · subst h2
              exact hylt
            · exact hpre c2 h2 hl2
      · obtain ⟨y, hy, hle, hmin, hdec⟩ := ih x
        have hupd : specUpdate cp rc (some x) c = some x := by
          simp [specUpdate, hv, hlt]
        refine ⟨y, ?_, hle, ?_, ?_⟩
        · show specFold cp rc (specUpdate cp rc (some x) c) rest = some y
          rw [hupd]
          exact hy
        · intro c2 hc2 hl2
          rcases List.mem_cons.mp hc2 with h2 | h2
          · subst h2
            exact le_trans hle (not_lt.mp hlt)
          · exact hmin c2 h2 hl2
        · rcases hdec with h | ⟨pre, cand, post, heq, hcand, hsoft, hidx, hplace, hylt, hpre⟩
          · exact Or.inl h
          · refine Or.inr ⟨c :: pre, cand, post, by simp [heq], hcand, hsoft, hidx, hplace,
              hylt, ?_⟩
            intro c2 hc2 hl2
            rcases List.mem_cons.mp hc2 with h2 | h2
            · subst h2
              exact lt_of_lt_of_le hylt (not_lt.mp hlt)
            · exact hpre c2 h2 hl2

/-- Characterization of the first-minimum fold without an incumbent: a some
result is the earliest legal candidate of minimal soft cost. -/
theorem specFold_none_char (cp : ConstraintPipeline) (rc : RouteContext) :
    ∀ (l : List ActivityContext) (y : ℕ × Cost × Place),
      specFold cp rc none l = some y →
      ∃ pre cand post, l = pre ++ cand :: post ∧
        cp.evaluate_hard_activity rc cand = none ∧
        cp.evaluate_soft_activity rc cand = y.2.1 ∧ cand.index = y.1 ∧
        cand.target.place = y.2.2 ∧
        (∀ c ∈ l, cp.evaluate_hard_activity rc c = none →
          y.2.1 ≤ cp.evaluate_soft_activity rc c) ∧
        (∀ c ∈ pre, cp.evaluate_hard_activity rc c = none →
          y.2.1 < cp.evaluate_soft_activity rc c) := by
  intro l
  induction l with
  | nil =>
    intro y h
    cases h
  | cons c rest ih =>
    intro y h
    cases hv : cp.evaluate_hard_activity rc c with
    | some v =>
      have hupd : specUpdate cp rc none c = none := by
        simp [specUpdate, hv]
      have h2 : specFold cp rc none rest = some y := by
        have : specFold cp rc (specUpdate cp rc none c) rest = some y := h
        rw [hupd] at this
        exact this
      obtain ⟨pre, cand, post, heq, hcand, hsoft, hidx, hplace, hmin, hpre⟩ := ih y h2
      refine ⟨c :: pre, cand, post, by simp [heq], hcand, hsoft, hidx, hplace, ?_, ?_⟩
      · intro c2 hc2 hl2
        rcases List.mem_cons.mp hc2 with h3 | h3
        · subst h3
          rw [hv] at hl2
          cases hl2
        · exact hmin c2 h3 hl2
      · intro c2 hc2 hl2
        rcases List.mem_cons.mp hc2 with h3 | h3
        · subst h3
          rw [hv] at hl2
          cases hl2
        · exact hpre c2 h3 hl2
    | none =>
      have hupd : specUpdate cp rc none c =
          some (c.index, cp.evaluate_soft_activity rc c, c.target.place) := by
        simp [specUpdate, hv]
      have h2 : specFold cp rc
          (some (c.index, cp.evaluate_soft_activity rc c, c.target.place)) rest = some y := by
        have : specFold cp rc (specUpdate cp rc none c) rest = some y := h
        rw [hupd] at this
        exact this
      obtain ⟨y2, hy2, hle, hmin, hdec⟩ :=
        specFold_some_char cp rc rest (c.index, cp.evaluate_soft_activity rc c, c.target.place)
      rw [h2] at hy2
      cases hy2
      rcases hdec with heq | ⟨pre, cand, post, heq, hcand, hsoft, hidx, hplace, hylt, hpre⟩
      · refine ⟨[], c, rest, rfl, hv, ?_, ?_, ?_, ?_, by simp⟩
        · rw [heq]
        · rw [heq]
        · rw [heq]
        · intro c2 hc2 hl2
          rcases List.mem_cons.mp hc2 with h3 | h3
          · subst h3
            rw [heq]
          · exact hmin c2 h3 hl2
      · refine ⟨c :: pre, cand, post, by simp [heq], hcand, hsoft, hidx, hplace, ?_, ?_⟩
        · intro c2 hc2 hl2
          rcases List.mem_cons.mp hc2 with h3 | h3
          · subst h3
            exact hle
          · exact hmin c2 h3 hl2
        · intro c2 hc2 hl2
          rcases List.mem_cons.mp hc2 with h3 | h3
          · subst h3
            exact hylt
          · exact hpre c2 h3 hl2

/-- The first-minimum fold finds a result whenever a legal candidate
exists. -/
theorem specFold_none_exists (cp : ConstraintPipeline) (rc : RouteContext) :
    ∀ (l : List ActivityContext),
      (∃ c ∈ l, cp.evaluate_hard_activity rc c = none) →
      ∃ y, specFold cp rc none l = some y := by
  intro l
  induction l with
  | nil =>
    intro h
    rcases h with ⟨c, hc, _⟩
    cases hc
  | cons c rest ih =>
    intro h
    cases hv : cp.evaluate_hard_activity rc c with
    | none =>
      have hupd : specUpdate cp rc none c =
          some (c.index, cp.evaluate_soft_activity rc c, c.target.place) := by
        simp [specUpdate, hv]
      obtain ⟨y, hy, _⟩ :=
        specFold_some_char cp rc rest (c.index, cp.evaluate_soft_activity rc c, c.target.place)
      refine ⟨y, ?_⟩
      show specFold cp rc (specUpdate cp rc none c) rest = some y
      rw [hupd]
      exact hy
    | some v =>
      have hupd : specUpdate cp rc none c = none := by
        simp [specUpdate, hv]
      rcases h with ⟨c2, hc2, hl2⟩
      rcases List.mem_cons.mp hc2 with h3 | h3
      · subst h3
        rw [hv] at hl2
        cases hl2
      · obtain ⟨y, hy⟩ := ih ⟨c2, h3, hl2⟩
        refine ⟨y, ?_⟩
        show specFold cp rc (specUpdate cp rc none c) rest = some y
        rw [hupd]
        exact hy

/-- Evaluation of evaluate_single at position Any in terms of the result
fields of the route analysis. -/
theorem evaluate_single_of_result (job : Job) (single : Single) (cp : ConstraintPipeline)
    (rc : RouteContext) (route_costs : Cost) (A : SingleContext) (i : ℕ) (b : Cost)
    (p : Place)
    (hA : analyze_insertion_in_route cp rc none single (SingleContext.new none 0) = A)
    (hAi : A.index = i) (hAc : A.cost = some b) (hAp : A.place = some p) :
    evaluate_single job single cp rc InsertionPosition.Any route_costs none =
      InsertionResult.make_success (b + route_costs) job
        [({ Activity.new_with_job single with place := p }, i)] rc := by
  unfold evaluate_single
  simp only [get_insertion_index, hA, SingleContext.is_success, hAc, hAp, hAi,
    Option.isSome_some, Option.getD_some, if_true]

/-- C1 amended: over one route at position Any with no best-known bound, if
some scanned candidate (the scan stops at the first stopped violation) is
legal, evaluate_single returns Success whose cost is the soft route cost
plus the soft activity cost of the earliest cheapest legal scanned
candidate: the cost is a lower bound of all legal scanned candidates, and
every legal candidate before the returned one is strictly more expensive
(ties keep the earlier). The hypothesis that scanned legal candidates
price below f64MAX mirrors the incumbent sentinel of the source. -/
theorem c1_single_best_insertion (cp : ConstraintPipeline) (rc : RouteContext)
    (single : Single) (job : Job) (route_costs : Cost)
    (hfin : ∀ c ∈ scanned cp rc (allCands rc single),
      cp.evaluate_hard_activity rc c = none →
      cp.evaluate_soft_activity rc c < f64MAX)
    (hex : ∃ c ∈ scanned cp rc (allCands rc single),
      cp.evaluate_hard_activity rc c = none) :
    ∃ i b p pre cand post,
      evaluate_single job single cp rc InsertionPosition.Any route_costs none =
        InsertionResult.make_success (b + route_costs) job
          [({ Activity.new_with_job single with place := p }, i)] rc ∧
      scanned cp rc (allCands rc single) = pre ++ cand :: post ∧
      cp.evaluate_hard_activity rc cand = none ∧
      cp.evaluate_soft_activity rc cand = b ∧ cand.index = i ∧
      cand.target.place = p ∧
      (∀ c ∈ scanned cp rc (allCands rc single),
        cp.evaluate_hard_activity rc c = none →
        b ≤ cp.evaluate_soft_activity rc c) ∧
      (∀ c ∈ pre, cp.evaluate_hard_activity rc c = none →
        b < cp.evaluate_soft_activity rc c) := by
  have hexScan : ∃ c ∈ scanned cp rc (allCands rc single),
      cp.evaluate_hard_activity rc c = none := hex
  obtain ⟨y, hy⟩ := specFold_none_exists cp rc _ hexScan
  obtain ⟨pre, cand, post, hsplit, hcand, hsoft, hidx, hplace, hminl, hprel⟩ :=
    specFold_none_char cp rc _ y hy
  have hagree := scan_agrees cp rc (allCands rc single) (SingleContext.new none 0) none
    ⟨rfl, rfl⟩ hfin
  rw [hy] at hagree
  obtain ⟨hAi, hAc, hAp⟩ := hagree
  have hAeq : analyze_insertion_in_route cp rc none single (SingleContext.new none 0) =
      unwrap_from_result (tryFold (candStep cp rc) (SingleContext.new none 0)
        (allCands rc single)) := by
    rw [analyze_route_eq_tryFold]
    congr 1
  refine ⟨y.1, y.2.1, y.2.2, pre, cand, post, ?_, hsplit, hcand, hsoft, hidx, hplace,
    hminl, hprel⟩
  exact evaluate_single_of_result job single cp rc route_costs _ y.1 y.2.1 y.2.2
    hAeq (hAeq ▸ hAi) (hAeq ▸ hAc) (hAeq ▸ hAp)

/-- Witness for C1 at a one-leg route with a single legal candidate of soft
cost 5. -/
theorem c1_witness :
    ∃ i b p pre cand post,
      evaluate_single (Job.single singleW) singleW cpFreeW rcW1 InsertionPosition.Any 0
          none =
        InsertionResult.make_success (b + 0) (Job.single singleW)
          [({ Activity.new_with_job singleW with place := p }, i)] rcW1 ∧
      scanned cpFreeW rcW1 (allCands rcW1 singleW) = pre ++ cand :: post ∧
      cpFreeW.evaluate_hard_activity rcW1 cand = none ∧
      cpFreeW.evaluate_soft_activity rcW1 cand = b ∧ cand.index = i ∧
      cand.target.place = p ∧
      (∀ c ∈ scanned cpFreeW rcW1 (allCands rcW1 singleW),
        cpFreeW.evaluate_hard_activity rcW1 c = none →
        b ≤ cpFreeW.evaluate_soft_activity rcW1 c) ∧
      (∀ c ∈ pre, cpFreeW.evaluate_hard_activity rcW1 c = none →
        b < cpFreeW.evaluate_soft_activity rcW1 c) :=
  c1_single_best_insertion cpFreeW rcW1 singleW (Job.single singleW) 0
    (fun _ _ _ => by norm_num [cpFreeW, f64MAX]) (by decide)

/-- Counterexample for C1 as stated: on a two-leg route whose leg-0
candidate draws a stopped violation (code 7) while the leg-1 candidate is
legal, a legal candidate exists yet evaluate_single returns a Failure: the
stopped abort hides later legal candidates, so the minimum ranges only
over the scanned prefix. -/
theorem c1_best_insertion_cex :
    (∃ c ∈ allCands rcW2 singleW, cpStopW.evaluate_hard_activity rcW2 c = none) ∧
    ∀ s, evaluate_single (Job.single singleW) singleW cpStopW rcW2 InsertionPosition.Any
        0 none ≠ InsertionResult.success s := by
  constructor
  · decide
  · intro s h
    have heval : evaluate_single (Job.single singleW) singleW cpStopW rcW2
        InsertionPosition.Any 0 none =
        InsertionResult.make_failure_with_code 7 (some (Job.single singleW)) := by rfl
    rw [heval] at h
    cases h

end VRP
